import Mathlib

/-!
Shallow embedding of `src/generate_map.py` (WireNext/ZBE-ESP).

The script is a linear ETL pipeline: `fetch_xml_urls` scrapes an HTML index
page for links ending in `.xml`, `process_xml_to_geojson` fetches and parses
each XML document, extracting controlled zones into GeoJSON features, and the
`__main__` block orchestrates cleanup, listing, extraction and the conditional
write of the output file.

Modelling decisions:
* Network and XML-parse effects become input data: an `IndexResult` for the
  index page, a `FetchResult` per resource URL.  A fetched document is
  represented by the part of its element tree the script consumes: the list of
  `conz:controlledZone` elements, each with an optional name element and a
  list of `loc:openlrPolygonCorners` elements holding `loc:openlrCoordinates`
  children.
* `float(...)` values are modelled as rationals; a coordinate child whose
  latitude or longitude cannot be obtained (missing child element, missing
  text, or unparseable text — each of which raises in Python and is caught by
  the per-URL `except` clauses) is modelled with `none` in that field, and the
  corresponding parse step returns `Except.error ()`, mirroring the raised
  exception propagating out of the per-zone loop.
* Python's `zone_name_elem.text` may be `None` (element present, no text), so
  the extracted name is an `Option String`: `none` models Python's `None`.
* The mutable list `geojson_features`, shared across the per-URL loop, is
  threaded explicitly as an accumulator; an exception raised mid-document
  abandons the rest of that document but keeps everything appended so far,
  exactly as the `try/except` in the source does.
-/

/-- Base URL constant from line 10 of the source. -/
def BASE_URL : String := "https://infocar.dgt.es/datex2/v3/dgt/zbe/ControledZonePublication/"

/-- Python's `str.endswith(suffix)`: the suffix relation on strings. -/
def endswith (s suffix : String) : Bool :=
  suffix.data.isSuffixOf s.data

/-- An `<a>` element of the index page; `href` is `none` when the attribute is
absent (`link.get('href')` returns `None`). -/
structure Anchor where
  href : Option String
deriving DecidableEq

/-- Outcome of the single GET of the index page in `fetch_xml_urls`: either a
`requests` exception or the list of anchors BeautifulSoup finds, in document
order. -/
inductive IndexResult where
  | fetchError : IndexResult
  | ok : List Anchor → IndexResult

/-- The anchor loop of `fetch_xml_urls` (lines 25-28): keep `href`s that are
truthy and end in `.xml`, resolving each by string concatenation with
`BASE_URL`. -/
def collectXmlUrls : List Anchor → List String
  | [] => []
  | a :: rest =>
    match a.href with
    | some h =>
      if h ≠ "" ∧ endswith h ".xml" then (BASE_URL ++ h) :: collectXmlUrls rest
      else collectXmlUrls rest
    | none => collectXmlUrls rest

/-- The function `fetch_xml_urls` (lines 14-34): on a request exception the handler logs and
returns `[]`; otherwise the anchor targets ending in `.xml` are resolved
against `BASE_URL` in document order. -/
def fetch_xml_urls : IndexResult → List String
  | IndexResult.fetchError => []
  | IndexResult.ok anchors => collectXmlUrls anchors

/-- An emitted coordinate pair `[lon, lat]` (line 67). -/
abbrev Pt := ℚ × ℚ

/-- One `loc:openlrCoordinates` element.  A field is `some q` when the child
element exists and its text parses to the number `q`; it is `none` when the
lookup or conversion on lines 65-66 raises (missing child, `None` text, or
non-numeric text). -/
structure CoordElem where
  lat : Option ℚ
  lon : Option ℚ
deriving DecidableEq

/-- A well-formed coordinate element holding latitude `p.1`, longitude `p.2`. -/
def mkCoordElem (p : ℚ × ℚ) : CoordElem :=
  { lat := some p.1, lon := some p.2 }

/-- Lines 65-67: read latitude then longitude and append `[lon, lat]`;
`Except.error ()` models the exception raised on a malformed element. -/
def parseCoord (c : CoordElem) : Except Unit Pt :=
  match c.lat with
  | none => Except.error ()
  | some la =>
    match c.lon with
    | none => Except.error ()
    | some lo => Except.ok (lo, la)

/-- Effectful map over a list, stopping at the first error — the semantics of
a Python `for` loop whose body may raise. -/
def mapExcept (f : α → Except Unit β) : List α → Except Unit (List β)
  | [] => Except.ok []
  | a :: as =>
    match f a with
    | Except.error e => Except.error e
    | Except.ok b =>
      match mapExcept f as with
      | Except.error e => Except.error e
      | Except.ok bs => Except.ok (b :: bs)

/-- Lines 68-70: if `coords` is non-empty and its first and last entries
differ, append a copy of the first entry. -/
def closeRing : List Pt → List Pt
  | [] => []
  | p :: rest =>
    if (p :: rest).getLast? ≠ some p then (p :: rest) ++ [p] else p :: rest

/-- The inner coordinate loop for one `loc:openlrPolygonCorners` element
(lines 63-70): parse every coordinate child in order, then close the ring. -/
def processRing (cs : List CoordElem) : Except Unit (List Pt) :=
  match mapExcept parseCoord cs with
  | Except.error e => Except.error e
  | Except.ok pts => Except.ok (closeRing pts)

/-- One `conz:controlledZone` element, reduced to what the script reads:
`nameElem` is `some t` when `zone.find('.//conz:name/com:values/com:value')`
finds an element whose `.text` is `t` (itself optional), `none` when the find
returns `None`; `polygons` holds the coordinate children of each
`loc:openlrPolygonCorners` descendant, in document order. -/
structure Zone where
  nameElem : Option (Option String)
  polygons : List (List CoordElem)
deriving DecidableEq

/-- Lines 57-58: `zone_name = zone_name_elem.text if zone_name_elem is not
None else "Unknown Zone"`.  Note the fallback applies only when the element is
absent, not when its text is `None`. -/
def zoneNameOf (z : Zone) : Option String :=
  match z.nameElem with
  | some t => t
  | none => some "Unknown Zone"

/-- A GeoJSON Feature dict as built on lines 75-84.  The `name` key is always
present in `properties`; its value mirrors Python (`none` = JSON null). -/
structure Feature where
  ftype : String
  name : Option String
  gtype : String
  coordinates : List (List (List Pt))
deriving DecidableEq

/-- Lines 57-85 for a single zone: compute the name, run the polygon loop
(every ring, including an empty one, is appended to `polygons` on line 71),
and emit a Feature exactly when the `polygons` list is non-empty (`if
polygons:` on line 73).  `Except.error ()` models an exception escaping the
zone loop to the per-URL handler. -/
def processZone (z : Zone) : Except Unit (Option Feature) :=
  match mapExcept processRing z.polygons with
  | Except.error e => Except.error e
  | Except.ok rings =>
    match rings with
    | [] => Except.ok none
    | r :: rs =>
      Except.ok (some { ftype := "Feature", name := zoneNameOf z,
                        gtype := "MultiPolygon", coordinates := [r :: rs] })

/-- Result of fetching and parsing one resource URL (lines 43-45):
a `requests` exception, an `ET.ParseError`, or the parsed document, reduced to
its list of `conz:controlledZone` elements. -/
structure Document where
  zones : List Zone
deriving DecidableEq

inductive FetchResult where
  | fetchError : FetchResult
  | parseError : FetchResult
  | ok : Document → FetchResult
deriving DecidableEq

/-- The zone loop (lines 56-85) over the shared `geojson_features`
accumulator: a zone that raises stops the loop for this document, keeping
features appended so far (they were appended to the outer list already). -/
def processZones : List Zone → List Feature → List Feature
  | [], acc => acc
  | z :: zs, acc =>
    match processZone z with
    | Except.error _ => acc
    | Except.ok none => processZones zs acc
    | Except.ok (some f) => processZones zs (acc ++ [f])

/-- One iteration of the URL loop (lines 41-92): the three `except` clauses
catch a fetch error, a parse error, and any other exception; in every failing
case the accumulator is left as it stands. -/
def processUrl (acc : List Feature) (r : FetchResult) : List Feature :=
  match r with
  | FetchResult.fetchError => acc
  | FetchResult.parseError => acc
  | FetchResult.ok doc => processZones doc.zones acc

/-- The returned GeoJSON object (lines 94-97). -/
structure FeatureCollection where
  ctype : String
  features : List Feature
deriving DecidableEq

/-- The function `process_xml_to_geojson` (lines 36-97), with each URL's fetch/parse
outcome supplied as data. -/
def process_xml_to_geojson (rs : List FetchResult) : FeatureCollection :=
  { ctype := "FeatureCollection", features := rs.foldl processUrl [] }

/-- Observable outcome of the `__main__` block (lines 116-129) as far as the
output file is concerned: `noUrls` and `noFeatures` terminate without calling
`save_geojson` (no file is created, an existing one is untouched); `wrote fc`
records the single `save_geojson(fc, GEOJSON_FILE)` call. -/
inductive MainOutcome where
  | noUrls : MainOutcome
  | noFeatures : MainOutcome
  | wrote : FeatureCollection → MainOutcome
deriving DecidableEq

/-- Lines 120-128: list URLs; if none, exit; otherwise extract and write only
when the features list is non-empty.  `fetch` supplies each URL's outcome. -/
def mainRun (idx : IndexResult) (fetch : String → FetchResult) : MainOutcome :=
  match fetch_xml_urls idx with
  | [] => MainOutcome.noUrls
  | u :: us =>
    if (process_xml_to_geojson ((u :: us).map fetch)).features = [] then
      MainOutcome.noFeatures
    else
      MainOutcome.wrote (process_xml_to_geojson ((u :: us).map fetch))

/-- Spec-side description of the Resource Lister (spec §4.1 and §8): exactly
the anchor targets with suffix `.xml`, each concatenated onto the base
address, in document order. -/
def listResourcesSpec (anchors : List Anchor) : List String :=
  ((anchors.filterMap Anchor.href).filter (fun h => endswith h ".xml")).map
    (fun h => BASE_URL ++ h)

/-- Equality of `Except` values is decidable componentwise. -/
instance {ε α : Type} [DecidableEq ε] [DecidableEq α] : DecidableEq (Except ε α) := fun a b =>
  match a, b with
  | Except.error e, Except.error e' =>
    if h : e = e' then isTrue (by rw [h]) else isFalse (by simp [h])
  | Except.error _, Except.ok _ => isFalse (by simp)
  | Except.ok _, Except.error _ => isFalse (by simp)
  | Except.ok x, Except.ok y =>
    if h : x = y then isTrue (by rw [h]) else isFalse (by simp [h])

/-! ### Helper lemmas -/

theorem mapExcept_ok_length {f : α → Except Unit β} :
    ∀ {l : List α} {bs : List β}, mapExcept f l = Except.ok bs → bs.length = l.length
  | [], bs, h => by
    simp only [mapExcept, Except.ok.injEq] at h
    simp [← h]
  | a :: as, bs, h => by
    simp only [mapExcept] at h
    cases hfa : f a with
    | error e => rw [hfa] at h; exact absurd h (by simp)
    | ok b =>
      rw [hfa] at h
      cases hrest : mapExcept f as with
      | error e => rw [hrest] at h; exact absurd h (by simp)
      | ok bs' =>
        rw [hrest] at h
        cases h
        simp [List.length_cons, mapExcept_ok_length hrest]

theorem mapExcept_ok_mem {f : α → Except Unit β} :
    ∀ {l : List α} {bs : List β}, mapExcept f l = Except.ok bs →
      ∀ b ∈ bs, ∃ a ∈ l, f a = Except.ok b
  | [], bs, h => by
    simp only [mapExcept, Except.ok.injEq] at h
    subst h
    intro b hb
    exact absurd hb (by simp)
  | a :: as, bs, h => by
    simp only [mapExcept] at h
    cases hfa : f a with
    | error e => rw [hfa] at h; exact absurd h (by simp)
    | ok b₀ =>
      rw [hfa] at h
      cases hrest : mapExcept f as with
      | error e => rw [hrest] at h; exact absurd h (by simp)
      | ok bs' =>
        rw [hrest] at h
        cases h
        intro b hb
        rcases List.mem_cons.mp hb with hb | hb
        · exact ⟨a, List.mem_cons_self a as, hb ▸ hfa⟩
        · rcases mapExcept_ok_mem hrest b hb with ⟨a', ha', hfa'⟩
          exact ⟨a', List.mem_cons_of_mem a ha', hfa'⟩

theorem mapExcept_coords (ps : List (ℚ × ℚ)) :
    mapExcept parseCoord (ps.map mkCoordElem) = Except.ok (ps.map Prod.swap) := by
  induction ps with
  | nil => rfl
  | cons p ps ih =>
    simp only [List.map_cons, mapExcept, parseCoord, mkCoordElem, ih]
    rfl

theorem closeRing_closed (pts : List Pt) (h : closeRing pts ≠ []) :
    (closeRing pts).head? = (closeRing pts).getLast? := by
  match pts with
  | [] => exact absurd rfl h
  | p :: rest =>
    by_cases hc : (p :: rest).getLast? = some p
    · have he : closeRing (p :: rest) = p :: rest := by simp [closeRing, hc]
      rw [he, List.head?_cons, hc]
    · have he : closeRing (p :: rest) = (p :: rest) ++ [p] := by
        simp [closeRing, hc]
      rw [he, List.head?_append_of_ne_nil _ (by simp), List.head?_cons,
        List.getLast?_concat]

theorem processRing_ok_closeRing {cs : List CoordElem} {r : List Pt}
    (h : processRing cs = Except.ok r) : ∃ pts, r = closeRing pts := by
  unfold processRing at h
  cases hm : mapExcept parseCoord cs with
  | error e => rw [hm] at h; exact absurd h (by simp)
  | ok pts =>
    rw [hm] at h
    cases h
    exact ⟨pts, rfl⟩

theorem processZone_ok_some {z : Zone} {f : Feature}
    (h : processZone z = Except.ok (some f)) :
    ∃ rings, mapExcept processRing z.polygons = Except.ok rings ∧ rings ≠ [] ∧
      f = ⟨"Feature", zoneNameOf z, "MultiPolygon", [rings]⟩ := by
  unfold processZone at h
  cases hm : mapExcept processRing z.polygons with
  | error e => rw [hm] at h; exact absurd h (by simp)
  | ok rings =>
    rw [hm] at h
    cases rings with
    | nil => exact absurd h (by simp)
    | cons r rs =>
      simp only [Except.ok.injEq, Option.some.injEq] at h
      exact ⟨r :: rs, rfl, by simp, h.symm⟩

theorem processZone_ok_none_iff {z : Zone} {rings : List (List Pt)}
    (h : mapExcept processRing z.polygons = Except.ok rings) :
    processZone z = Except.ok none ↔ z.polygons = [] := by
  unfold processZone
  rw [h]
  cases rings with
  | nil =>
    have : z.polygons.length = 0 := by rw [← mapExcept_ok_length h]; rfl
    simp [List.length_eq_zero.mp this]
  | cons r rs =>
    have hlen : z.polygons.length = rs.length + 1 := by
      rw [← mapExcept_ok_length h]; rfl
    constructor
    · intro hcontra; exact absurd hcontra (by simp)
    · intro hnil; rw [hnil] at hlen; exact absurd hlen (by simp)

theorem processZones_append (zs : List Zone) :
    ∀ acc : List Feature, processZones zs acc = acc ++ processZones zs [] := by
  induction zs with
  | nil => intro acc; simp [processZones]
  | cons z zs ih =>
    intro acc
    cases hz : processZone z with
    | error e => simp [processZones, hz]
    | ok o =>
      cases o with
      | none => simp only [processZones, hz]; exact ih acc
      | some f =>
        simp only [processZones, hz]
        rw [ih (acc ++ [f]), ih ([] ++ [f])]
        simp

theorem mem_processZones {f : Feature} :
    ∀ {zs : List Zone} {acc : List Feature}, f ∈ processZones zs acc →
      f ∈ acc ∨ ∃ z ∈ zs, processZone z = Except.ok (some f)
  | [], acc, h => Or.inl h
  | z :: zs, acc, h => by
    simp only [processZones] at h
    cases hz : processZone z with
    | error e => rw [hz] at h; exact Or.inl h
    | ok o =>
      rw [hz] at h
      cases o with
      | none =>
        rcases mem_processZones h with h' | ⟨z', hz', hf⟩
        · exact Or.inl h'
        · exact Or.inr ⟨z', List.mem_cons_of_mem z hz', hf⟩
      | some f' =>
        rcases mem_processZones h with h' | ⟨z', hz', hf⟩
        · rcases List.mem_append.mp h' with h'' | h''
          · exact Or.inl h''
          · have : f = f' := by simpa using h''
            exact Or.inr ⟨z, List.mem_cons_self z zs, this ▸ hz⟩
        · exact Or.inr ⟨z', List.mem_cons_of_mem z hz', hf⟩

theorem processZones_stop {z : Zone} (hz : processZone z = Except.error ())
    (zs₁ zs₂ : List Zone) :
    ∀ acc, processZones (zs₁ ++ z :: zs₂) acc = processZones zs₁ acc := by
  induction zs₁ with
  | nil => intro acc; simp [processZones, hz]
  | cons z' zs₁ ih =>
    intro acc
    simp only [List.cons_append]
    cases hz' : processZone z' with
    | error e => simp [processZones, hz']
    | ok o =>
      cases o with
      | none => simp only [processZones, hz']; exact ih acc
      | some f => simp only [processZones, hz']; exact ih (acc ++ [f])

theorem processUrl_append (acc : List Feature) (r : FetchResult) :
    processUrl acc r = acc ++ processUrl [] r := by
  cases r with
  | fetchError => simp [processUrl]
  | parseError => simp [processUrl]
  | ok doc => exact processZones_append doc.zones acc

theorem foldl_processUrl_flatten (rs : List FetchResult) :
    ∀ acc : List Feature,
      rs.foldl processUrl acc = acc ++ (rs.map (fun r => processUrl [] r)).flatten := by
  induction rs with
  | nil => intro acc; simp
  | cons r rs ih =>
    intro acc
    simp only [List.foldl_cons, List.map_cons, List.flatten_cons]
    rw [ih (processUrl acc r), processUrl_append acc r, List.append_assoc]

theorem mem_features {rs : List FetchResult} {f : Feature}
    (h : f ∈ (process_xml_to_geojson rs).features) :
    ∃ z, processZone z = Except.ok (some f) := by
  unfold process_xml_to_geojson at h
  simp only at h
  rw [foldl_processUrl_flatten rs [], List.nil_append, List.mem_flatten] at h
  rcases h with ⟨l, hl, hfl⟩
  rcases List.mem_map.mp hl with ⟨r, _, hr⟩
  subst hr
  cases r with
  | fetchError => exact absurd hfl (by simp [processUrl])
  | parseError => exact absurd hfl (by simp [processUrl])
  | ok doc =>
    rcases mem_processZones hfl with h' | ⟨z, _, hz⟩
    · exact absurd h' (by simp)
    · exact ⟨z, hz⟩

/-! ### Claims -/

/-- C1: every coordinate element parsed as a (latitude, longitude) pair is
emitted as the (longitude, latitude) pair; the closing step appends a copy of
the first point exactly when the ring is non-empty and its first and last
points differ; and the ring of parsed (lat,lon) pairs [(1,2),(3,4),(5,6)] is
emitted as [[2,1],[4,3],[6,5],[2,1]]. -/
theorem c1_ring_reorder_and_close :
    (∀ ps : List (ℚ × ℚ),
      processRing (ps.map mkCoordElem) = Except.ok (closeRing (ps.map Prod.swap)))
    ∧ (∀ (p : Pt) (rest : List Pt), (p :: rest).getLast? ≠ some p →
        closeRing (p :: rest) = (p :: rest) ++ [p])
    ∧ processRing [mkCoordElem (1, 2), mkCoordElem (3, 4), mkCoordElem (5, 6)]
        = Except.ok [(2, 1), (4, 3), (6, 5), (2, 1)] := by
  refine ⟨?_, ?_, by decide⟩
  · intro ps
    unfold processRing
    rw [mapExcept_coords]
  · intro p rest h
    simp [closeRing, h]

/-- Witness for C1: the closing branch taken at a concrete open ring. -/
theorem c1_witness :
    closeRing ((2, 1) :: [(4, 3), (6, 5)]) = ((2, 1) :: [(4, 3), (6, 5)]) ++ [(2, 1)] :=
  c1_ring_reorder_and_close.2.1 (2, 1) [(4, 3), (6, 5)] (by decide)

/-- C2 counterexample: a zone with a single polygon element holding zero
coordinate elements.  Line 71 of the source appends the empty ring
unconditionally and line 73 tests only that the list of rings is non-empty,
so this zone yields a Feature containing one empty ring — the claim says it
should yield no ring and no Feature. -/
theorem c2_counterexample :
    (process_xml_to_geojson [FetchResult.ok ⟨[⟨none, [[]]⟩]⟩]).features
      = [⟨"Feature", some "Unknown Zone", "MultiPolygon", [[[]]]⟩] := by decide

/-- C2 amended: a polygon element with zero coordinate pairs produces an empty
ring that is kept in the zone's ring list (one ring per polygon element); for
a zone whose polygons all parse, no Feature is emitted iff the zone has no
polygon element at all — emptiness of the produced rings plays no role. -/
theorem c2_amended_emission (z : Zone) (rings : List (List Pt))
    (h : mapExcept processRing z.polygons = Except.ok rings) :
    processRing [] = Except.ok [] ∧
    rings.length = z.polygons.length ∧
    (processZone z = Except.ok none ↔ z.polygons = []) ∧
    ((∃ f, processZone z = Except.ok (some f)) ↔ z.polygons ≠ []) := by
  refine ⟨rfl, mapExcept_ok_length h, processZone_ok_none_iff h, ?_, ?_⟩
  · rintro ⟨f, hf⟩ hnil
    rcases processZone_ok_some hf with ⟨rings', hm, hne, _⟩
    rw [hnil] at hm
    simp only [mapExcept, Except.ok.injEq] at hm
    exact hne hm.symm
  · intro hne
    unfold processZone
    rw [h]
    cases hr : rings with
    | nil =>
      exfalso
      apply hne
      have hlen := mapExcept_ok_length h
      rw [hr] at hlen
      exact List.length_eq_zero.mp hlen.symm
    | cons r rs => exact ⟨_, rfl⟩

/-- Witness for C2's amended statement at the counterexample zone. -/
theorem c2_amended_witness :
    (∃ f, processZone ⟨none, [[]]⟩ = Except.ok (some f)) ↔
      (Zone.polygons ⟨none, [[]]⟩) ≠ [] :=
  (c2_amended_emission ⟨none, [[]]⟩ [[]] (by decide)).2.2.2

/-- C3: every non-empty ring inside any Feature of the output collection is
closed — its first and last coordinate pairs coincide. -/
theorem c3_rings_closed (rs : List FetchResult) (f : Feature)
    (hf : f ∈ (process_xml_to_geojson rs).features)
    (poly : List (List Pt)) (hp : poly ∈ f.coordinates)
    (ring : List Pt) (hr : ring ∈ poly) (hne : ring ≠ []) :
    ring.head? = ring.getLast? := by
  rcases mem_features hf with ⟨z, hz⟩
  rcases processZone_ok_some hz with ⟨rings, hm, _, hfeq⟩
  subst hfeq
  have hpoly : poly = rings := by simpa using hp
  subst hpoly
  rcases mapExcept_ok_mem hm ring hr with ⟨cs, _, hcs⟩
  rcases processRing_ok_closeRing hcs with ⟨pts, hring⟩
  subst hring
  exact closeRing_closed pts hne

/-- Witness for C3 on a one-zone input whose only ring needed closing. -/
theorem c3_witness :
    ([(2, 1), (4, 3), (6, 5), (2, 1)] : List Pt).head?
      = ([(2, 1), (4, 3), (6, 5), (2, 1)] : List Pt).getLast? :=
  c3_rings_closed
    [FetchResult.ok ⟨[⟨none,
      [[mkCoordElem (1, 2), mkCoordElem (3, 4), mkCoordElem (5, 6)]]⟩]⟩]
    ⟨"Feature", some "Unknown Zone", "MultiPolygon",
      [[[(2, 1), (4, 3), (6, 5), (2, 1)]]]⟩
    (by decide) [[(2, 1), (4, 3), (6, 5), (2, 1)]] (by decide)
    [(2, 1), (4, 3), (6, 5), (2, 1)] (by decide) (by decide)

/-- C4: on a successfully fetched index page, the lister returns exactly the
anchor targets whose textual suffix is `.xml`, each resolved by concatenating
the base address with the target, in document order; anchors without an
`href` or with another suffix are excluded. -/
theorem c4_list_resources (anchors : List Anchor) :
    fetch_xml_urls (IndexResult.ok anchors) = listResourcesSpec anchors := by
  show collectXmlUrls anchors = listResourcesSpec anchors
  induction anchors with
  | nil => rfl
  | cons a rest ih =>
    unfold collectXmlUrls listResourcesSpec
    unfold listResourcesSpec at ih
    cases ha : a.href with
    | none => simpa [ha] using ih
    | some h =>
      rcases eq_or_ne h "" with hh | hh
      · subst hh
        have hx : endswith "" ".xml" = false := by decide
        simpa [ha, hx] using ih
      · cases hx : endswith h ".xml" with
        | true => simpa [ha, hh, hx] using ih
        | false => simpa [ha, hh, hx] using ih

/-- C5: the output features decompose as the concatenation of each resource's
own contribution, so each resource is processed independently and every
Feature a resource yields on its own appears in the final collection no
matter how the other resources fail. -/
theorem c5_per_resource_isolation (rs : List FetchResult) (r : FetchResult)
    (hr : r ∈ rs) :
    (process_xml_to_geojson rs).features
        = (rs.map (fun x => processUrl [] x)).flatten ∧
    ∀ f ∈ processUrl [] r, f ∈ (process_xml_to_geojson rs).features := by
  have hd : (process_xml_to_geojson rs).features
      = (rs.map (fun x => processUrl [] x)).flatten := by
    unfold process_xml_to_geojson
    simpa using foldl_processUrl_flatten rs []
  refine ⟨hd, ?_⟩
  intro f hf
  rw [hd, List.mem_flatten]
  exact ⟨processUrl [] r, List.mem_map.mpr ⟨r, hr, rfl⟩, hf⟩

/-- Witness for C5: the good resource's Feature survives a failing sibling. -/
theorem c5_witness :
    (⟨"Feature", some "Unknown Zone", "MultiPolygon", [[[(2, 1)]]]⟩ : Feature)
      ∈ (process_xml_to_geojson
          [FetchResult.fetchError,
           FetchResult.ok ⟨[⟨none, [[mkCoordElem (1, 2)]]⟩]⟩]).features :=
  (c5_per_resource_isolation
    [FetchResult.fetchError, FetchResult.ok ⟨[⟨none, [[mkCoordElem (1, 2)]]⟩]⟩]
    (FetchResult.ok ⟨[⟨none, [[mkCoordElem (1, 2)]]⟩]⟩)
    (by decide)).2 _ (by decide)

/-- C6 counterexample: one resource whose document holds a good zone followed
by a zone with a malformed coordinate element (its latitude lookup raises).
The catch-all handler fires only after the first zone's Feature was already
appended to the shared list, so this failing resource contributes one
Feature, not zero. -/
theorem c6_counterexample :
    processZone ⟨none, [[⟨none, none⟩]]⟩ = Except.error () ∧
    (process_xml_to_geojson
        [FetchResult.ok ⟨[⟨some (some "Madrid ZBE"), [[mkCoordElem (1, 2)]]⟩,
                          ⟨none, [[⟨none, none⟩]]⟩]⟩]).features
      = [⟨"Feature", some "Madrid ZBE", "MultiPolygon", [[[(2, 1)]]]⟩] :=
  ⟨by decide, by decide⟩

/-- C6 amended: a resource that fails to fetch or to parse contributes zero
Features; a resource whose processing raises at some zone contributes exactly
the Features of the zones that completed before the first failing one —
possibly a non-zero number. -/
theorem c6_amended_contribution (zs₁ : List Zone) (z : Zone) (zs₂ : List Zone)
    (hz : processZone z = Except.error ()) :
    processUrl [] FetchResult.fetchError = [] ∧
    processUrl [] FetchResult.parseError = [] ∧
    processUrl [] (FetchResult.ok ⟨zs₁ ++ z :: zs₂⟩) = processZones zs₁ [] :=
  ⟨rfl, rfl, processZones_stop hz zs₁ zs₂ []⟩

/-- Witness for C6's amended statement: one completed zone before the
failing one. -/
theorem c6_amended_witness :
    processUrl []
        (FetchResult.ok ⟨[⟨some (some "A"), [[mkCoordElem (1, 2)]]⟩] ++
          (⟨none, [[⟨none, none⟩]]⟩ : Zone) :: []⟩)
      = processZones [⟨some (some "A"), [[mkCoordElem (1, 2)]]⟩] [] :=
  (c6_amended_contribution [⟨some (some "A"), [[mkCoordElem (1, 2)]]⟩]
    ⟨none, [[⟨none, none⟩]]⟩ [] (by decide)).2.2

/-- C7: the write step is invoked only when at least one Feature was
produced; whenever the extracted feature list is empty the run ends in a
non-writing outcome, so no output file is created or overwritten. -/
theorem c7_write_guard (idx : IndexResult) (fetch : String → FetchResult) :
    (∀ fc, mainRun idx fetch = MainOutcome.wrote fc → fc.features ≠ []) ∧
    ((process_xml_to_geojson ((fetch_xml_urls idx).map fetch)).features = [] →
      ∀ fc, mainRun idx fetch ≠ MainOutcome.wrote fc) := by
  constructor
  · intro fc hw
    unfold mainRun at hw
    cases hu : fetch_xml_urls idx with
    | nil => rw [hu] at hw; exact absurd hw (by simp)
    | cons u us =>
      rw [hu] at hw
      simp only at hw
      by_cases hf : (process_xml_to_geojson ((u :: us).map fetch)).features = []
      · rw [if_pos hf] at hw; exact absurd hw (by simp)
      · rw [if_neg hf] at hw
        have hfc : fc = process_xml_to_geojson ((u :: us).map fetch) :=
          (MainOutcome.wrote.inj hw).symm
        rw [hfc]
        exact hf
  · intro hempty fc hw
    unfold mainRun at hw
    cases hu : fetch_xml_urls idx with
    | nil => rw [hu] at hw; exact absurd hw (by simp)
    | cons u us =>
      rw [hu] at hw
      rw [hu] at hempty
      simp only at hw
      rw [if_pos hempty] at hw
      exact absurd hw (by simp)

/-- Witness for C7 at a failing index fetch: nothing is written. -/
theorem c7_witness :
    mainRun IndexResult.fetchError (fun _ => FetchResult.fetchError)
      ≠ MainOutcome.wrote ⟨"FeatureCollection", []⟩ :=
  (c7_write_guard IndexResult.fetchError (fun _ => FetchResult.fetchError)).2
    rfl ⟨"FeatureCollection", []⟩

/-- C8: every emitted Feature has type "Feature", geometry type
"MultiPolygon", a `name` entry equal to its zone's extracted name, and a
coordinates list that is exactly one polygon-group holding all of that zone's
rings (one ring per polygon element, in order). -/
theorem c8_feature_shape (rs : List FetchResult) (f : Feature)
    (hf : f ∈ (process_xml_to_geojson rs).features) :
    f.ftype = "Feature" ∧ f.gtype = "MultiPolygon" ∧
    ∃ z rings, processZone z = Except.ok (some f) ∧
      mapExcept processRing z.polygons = Except.ok rings ∧
      rings.length = z.polygons.length ∧
      f.name = zoneNameOf z ∧
      f.coordinates = [rings] := by
  rcases mem_features hf with ⟨z, hz⟩
  rcases processZone_ok_some hz with ⟨rings, hm, _, hfeq⟩
  subst hfeq
  exact ⟨rfl, rfl, z, rings, hz, hm, mapExcept_ok_length hm, rfl, rfl⟩

/-- Witness for C8 at a concrete one-zone input. -/
theorem c8_witness :
    (⟨"Feature", some "Unknown Zone", "MultiPolygon", [[[(2, 1)]]]⟩ : Feature).ftype
        = "Feature" ∧
    (⟨"Feature", some "Unknown Zone", "MultiPolygon", [[[(2, 1)]]]⟩ : Feature).gtype
        = "MultiPolygon" ∧
    ∃ z rings,
      processZone z = Except.ok (some
        ⟨"Feature", some "Unknown Zone", "MultiPolygon", [[[(2, 1)]]]⟩) ∧
      mapExcept processRing z.polygons = Except.ok rings ∧
      rings.length = z.polygons.length ∧
      (⟨"Feature", some "Unknown Zone", "MultiPolygon", [[[(2, 1)]]]⟩ : Feature).name
          = zoneNameOf z ∧
      (⟨"Feature", some "Unknown Zone", "MultiPolygon", [[[(2, 1)]]]⟩ : Feature).coordinates
          = [rings] :=
  c8_feature_shape [FetchResult.ok ⟨[⟨none, [[mkCoordElem (1, 2)]]⟩]⟩]
    ⟨"Feature", some "Unknown Zone", "MultiPolygon", [[[(2, 1)]]]⟩ (by decide)

/-- C9 counterexample: a zone whose name element exists but carries no text
(`.text` is `None` in Python).  The emitted `name` is `None` — JSON null, not
a string — whereas the claim says the emitted name is always a string, the
placeholder standing in whenever the parsed name is absent or unparseable. -/
theorem c9_counterexample :
    (process_xml_to_geojson
        [FetchResult.ok ⟨[⟨some none, [[mkCoordElem (1, 2)]]⟩]⟩]).features
      = [⟨"Feature", none, "MultiPolygon", [[[(2, 1)]]]⟩] := by decide

/-- C9 amended: the emitted name is the raw text of the first matching
name-value element whenever that element exists — including Python `None`
when the element has no text — and the placeholder string is used only when
no matching element exists at all. -/
theorem c9_amended_name (z : Zone) (f : Feature)
    (h : processZone z = Except.ok (some f)) :
    (z.nameElem = none → f.name = some "Unknown Zone") ∧
    (∀ t, z.nameElem = some t → f.name = t) := by
  rcases processZone_ok_some h with ⟨rings, _, _, hfeq⟩
  subst hfeq
  constructor
  · intro habs
    simp [zoneNameOf, habs]
  · intro t ht
    simp [zoneNameOf, ht]

/-- Witness for C9's amended statement at a zone with a textual name. -/
theorem c9_amended_witness :
    (⟨"Feature", some "Barcelona ZBE", "MultiPolygon", [[[(2, 1)]]]⟩ : Feature).name
      = some "Barcelona ZBE" :=
  (c9_amended_name ⟨some (some "Barcelona ZBE"), [[mkCoordElem (1, 2)]]⟩
    ⟨"Feature", some "Barcelona ZBE", "MultiPolygon", [[[(2, 1)]]]⟩ (by decide)).2
    (some "Barcelona ZBE") rfl

/-- C10: the extractor is total over arbitrary per-resource outcomes — every
failure is absorbed, the result always carries the top-level discriminator
"FeatureCollection" together with its (possibly empty) features list, and the
empty input yields an empty features list. -/
theorem c10_total_collection (rs : List FetchResult) :
    process_xml_to_geojson rs
        = ⟨"FeatureCollection", (process_xml_to_geojson rs).features⟩ ∧
    (process_xml_to_geojson []).features = [] :=
  ⟨rfl, rfl⟩
